import Mathlib

/-!
Verification of the `libswoc` BufferWriter formatting core.

The embedding models rendered output as `List Char` (a byte/character
sequence).  Definitions translated from `src/include/swoc/bwf_base.h` and
`src/swoc++/include/swoc/bwf_ip.h` keep the source structure; parts of the
engine whose bodies live in `bw_format.cc` (absent from the sources) are
modelled from the specification and marked `Modelled from the spec:` in
their doc comments.
-/

namespace Swoc

/-- Output field alignment, from `Spec::Align` in bwf_base.h. -/
inductive Align where
  | NONE
  | LEFT
  | RIGHT
  | CENTER
  | SIGN
deriving DecidableEq, Repr

/-- Sentinel for a missing or invalid specifier type (`Spec::INVALID_TYPE`). -/
def INVALID_TYPE : Char := Char.ofNat 0

/-- Default format type character (`Spec::DEFAULT_TYPE`). -/
def DEFAULT_TYPE : Char := 'g'

/-- Default maximum width (`std::numeric_limits<unsigned int>::max()`). -/
def UINT_MAX : Nat := 4294967295

/-- Parsed version of a format specifier, from `struct Spec` in bwf_base.h. -/
structure Spec where
  fill : Char := ' '
  sign : Char := '-'
  align : Align := Align.NONE
  type : Char := DEFAULT_TYPE
  radix_lead_p : Bool := false
  min : Nat := 0
  prec : Int := -1
  max : Nat := UINT_MAX
  idx : Int := -1
  name : List Char := []
  ext : List Char := []
deriving DecidableEq, Repr

/-- Modelled from the spec: the 256-entry character property table is built in
`bw_format.cc`, which is not among the sources; these are the valid type
characters (`Property::TYPE_CHAR`). -/
def type_chars : List Char := ['b', 'B', 'd', 'g', 'o', 's', 'S', 'x', 'X', 'p', 'P']

/-- Modelled from the spec: numeric type characters (`Property::NUMERIC_TYPE_CHAR`). -/
def numeric_type_chars : List Char := ['b', 'B', 'd', 'o', 'x', 'X', 'p', 'P']

/-- Modelled from the spec: upper-case variant type characters
(`Property::UPPER_TYPE_CHAR`). -/
def upper_type_chars : List Char := ['B', 'S', 'X', 'P']

/-- `Spec::is_type`. -/
def is_type (c : Char) : Bool := type_chars.contains c

/-- `Spec::is_numeric_type`. -/
def is_numeric_type (c : Char) : Bool := numeric_type_chars.contains c

/-- `Spec::is_upper_case_type`. -/
def is_upper_case_type (c : Char) : Bool := upper_type_chars.contains c

/-- `Spec::is_sign`: sign style characters (space, `+`, `-`). -/
def is_sign_char (c : Char) : Bool := c = '+' || c = '-' || c = ' '

/-- `Spec::align_of`: map an alignment character to the alignment code. -/
def align_of (c : Char) : Align :=
  if c = '<' then Align.LEFT
  else if c = '>' then Align.RIGHT
  else if c = '^' then Align.CENTER
  else if c = '=' then Align.SIGN
  else Align.NONE

/-- `Spec::has_valid_type`: the type is not the invalid sentinel. -/
def Spec.has_valid_type (s : Spec) : Bool := s.type ≠ INVALID_TYPE

/-- `Spec::has_numeric_type`. -/
def Spec.has_numeric_type (s : Spec) : Bool := is_numeric_type s.type

/-- `Spec::has_upper_case_type`. -/
def Spec.has_upper_case_type (s : Spec) : Bool := is_upper_case_type s.type

/-- Decimal value of a digit string. -/
def digits_val (ds : List Char) : Nat :=
  ds.foldl (fun acc c => acc * 10 + (c.toNat - '0'.toNat)) 0

/-- Split a character list at the first occurrence of `c`; the separator is
dropped. -/
def breakAt (c : Char) : List Char → Option (List Char × List Char)
  | [] => none
  | x :: xs =>
    if x = c then some ([], xs)
    else (breakAt c xs).map (fun p => (x :: p.1, p.2))

/-- Modelled from the spec (§4.1): parse the leading index-or-name token of a
specifier body.  A digits-only token is the positional index (the token is
also retained as the specifier's textual name, as required by the render
loop's empty-name test at bwf_base.h:522); any other non-empty token is the
name. -/
def parse_name (tok : List Char) (sp : Spec) : Spec :=
  if tok = [] then sp
  else if tok.all Char.isDigit then { sp with name := tok, idx := (digits_val tok : Int) }
  else { sp with name := tok }

/-- Modelled from the spec (§4.1): the `[[fill]align]` fields — an
alignment character, optionally preceded by an arbitrary fill character. -/
def parse_fill_align : List Char × Spec → List Char × Spec
  | (a :: b :: rest, sp) =>
    if align_of b ≠ Align.NONE then (rest, { sp with fill := a, align := align_of b })
    else if align_of a ≠ Align.NONE then (b :: rest, { sp with align := align_of a })
    else (a :: b :: rest, sp)
  | ([a], sp) =>
    if align_of a ≠ Align.NONE then ([], { sp with align := align_of a })
    else ([a], sp)
  | ([], sp) => ([], sp)

/-- Modelled from the spec (§4.1): the optional `[sign]` field. -/
def parse_sign : List Char × Spec → List Char × Spec
  | (c :: rest, sp) =>
    if is_sign_char c then (rest, { sp with sign := c }) else (c :: rest, sp)
  | ([], sp) => ([], sp)

/-- Modelled from the spec (§4.1): the optional radix-lead `#` field. -/
def parse_radix : List Char × Spec → List Char × Spec
  | (c :: rest, sp) =>
    if c = '#' then (rest, { sp with radix_lead_p := true }) else (c :: rest, sp)
  | ([], sp) => ([], sp)

/-- Modelled from the spec (§4.1): the optional `[min_width]` field. -/
def parse_min (p : List Char × Spec) : List Char × Spec :=
  (p.1.dropWhile Char.isDigit,
   if p.1.takeWhile Char.isDigit = [] then p.2
   else { p.2 with min := digits_val (p.1.takeWhile Char.isDigit) })

/-- Modelled from the spec (§4.1): the optional `[.precision]` field. -/
def parse_prec : List Char × Spec → List Char × Spec
  | ('.' :: rest, sp) =>
    (rest.dropWhile Char.isDigit,
     { sp with prec := (digits_val (rest.takeWhile Char.isDigit) : Int) })
  | (l, sp) => (l, sp)

/-- Modelled from the spec (§4.1): the optional `[,max_width]` field. -/
def parse_max : List Char × Spec → List Char × Spec
  | (',' :: rest, sp) =>
    (rest.dropWhile Char.isDigit,
     { sp with max := digits_val (rest.takeWhile Char.isDigit) })
  | (l, sp) => (l, sp)

/-- Modelled from the spec (§4.1): the trailing `[type][:extension]`
fields.  An unknown type character (or trailing text outside the grammar)
marks the specifier invalid-type. -/
def parse_type_ext : List Char × Spec → Spec
  | ([], sp) => sp
  | (':' :: ext, sp) => { sp with ext := ext }
  | (c :: rest, sp) =>
    let sp' := if is_type c then { sp with type := c } else { sp with type := INVALID_TYPE }
    match rest with
    | [] => sp'
    | ':' :: ext => { sp' with ext := ext }
    | _ => { sp' with type := INVALID_TYPE }

/-- Modelled from the spec (§4.1): parse the formatting fields
`[[fill]align][sign][#][min][.prec][,max][type][:extension]` of a specifier
body.  The parser body lives in `bw_format.cc`, which is not among the
sources. -/
def parse_fmt (s0 : List Char) (sp0 : Spec) : Spec :=
  parse_type_ext (parse_max (parse_prec (parse_min (parse_radix (parse_sign
    (parse_fill_align (s0, sp0)))))))

/-- Modelled from the spec (§4.1, §6): parse one specifier body
`[index-or-name][:fmt-fields]` into a `Spec`.  `Spec::Spec(TextView)` is
implemented in `bw_format.cc`, which is not among the sources. -/
def Spec.parse (body : List Char) : Spec :=
  match breakAt ':' body with
  | none => parse_name body {}
  | some (pre, post) => parse_fmt post (parse_name pre {})

/-- One item of tokenizer output: a literal span or a specifier body. -/
inductive Item where
  | lit (s : List Char)
  | spec (body : List Char)
deriving DecidableEq, Repr

/-- Flush an accumulated (reversed) literal into at most one item. -/
def flush_lit (acc : List Char) : List Item :=
  if acc = [] then [] else [Item.lit acc.reverse]

/-- Modelled from the spec (§4.2): the tokenizer splits a template into
literal spans and specifier bodies.  `\x7b\x7b` and `\x7d\x7d` yield single
literal braces; an unbalanced opening brace makes the remainder a literal.
`Format::parse` is implemented in `bw_format.cc`, which is not among the
sources.  The first argument is recursion fuel, instantiated with the
template length. -/
def tok_go : Nat → List Char → List Char → List Item
  | 0, s, acc => flush_lit (s.reverse ++ acc)
  | _ + 1, [], acc => flush_lit acc
  | fuel + 1, '\x7b' :: '\x7b' :: rest, acc => tok_go fuel rest ('\x7b' :: acc)
  | fuel + 1, '\x7d' :: '\x7d' :: rest, acc => tok_go fuel rest ('\x7d' :: acc)
  | fuel + 1, '\x7b' :: rest, acc =>
    match breakAt '\x7d' rest with
    | some (body, rest') => flush_lit acc ++ (Item.spec body :: tok_go fuel rest' [])
    | none => flush_lit (rest.reverse ++ '\x7b' :: acc)
  | fuel + 1, c :: rest, acc => tok_go fuel rest (c :: acc)

/-- Tokenize a template. -/
def tokenize (s : List Char) : List Item := tok_go s.length s []

/-- `List.replicate` of the fill character, the padding emitted by the
alignment renderer. -/
def fills (c : Char) (n : Nat) : List Char := List.replicate n c

/-- Modelled from the spec (§4.5): the alignment and padding renderer
(`Adjust_Alignment` in `bw_format.cc`, which is not among the sources).
Content at least `min` wide is copied verbatim, clipped to `max`; shorter
content is padded with the fill character according to the alignment. -/
def render_aligned (sp : Spec) (raw : List Char) : List Char :=
  let w := raw.length
  if sp.min ≤ w then
    if sp.max < w then raw.take sp.max else raw
  else
    let d := sp.min - w
    match sp.align with
    | Align.LEFT => raw ++ fills sp.fill d
    | Align.RIGHT => fills sp.fill d ++ raw
    | Align.CENTER => fills sp.fill (d / 2) ++ raw ++ fills sp.fill (d - d / 2)
    | Align.SIGN =>
      match raw with
      | c :: rest => if is_sign_char c then c :: (fills sp.fill d ++ rest) else fills sp.fill d ++ raw
      | [] => fills sp.fill d
    | Align.NONE => raw

/-- Decimal digit characters of `n`. -/
def dec_chars (n : Nat) : List Char := Nat.toDigits 10 n

/-- Lower-case hexadecimal digit characters of `n`. -/
def hex_chars (n : Nat) : List Char := Nat.toDigits 16 n

/-- Decimal characters of an integer, with a leading minus sign when
negative. -/
def int_dec_chars (i : Int) : List Char :=
  if i < 0 then '-' :: dec_chars (-i).toNat else dec_chars i.toNat

/-- Modelled from the spec (§4.5, §4.6): generic integral conversion
(`Format_Integer` in `bw_format.cc`, which is not among the sources).  The
digits are produced in the radix selected by the type character, prefixed
with the radix lead when requested and with the sign, and passed through the
alignment renderer. -/
def Format_Integer (sp : Spec) (n : Nat) (negative_p : Bool) : List Char :=
  let digits : List Char :=
    if sp.type = 'x' || sp.type = 'p' then hex_chars n
    else if sp.type = 'X' || sp.type = 'P' then (hex_chars n).map Char.toUpper
    else if sp.type = 'b' || sp.type = 'B' then Nat.toDigits 2 n
    else if sp.type = 'o' then Nat.toDigits 8 n
    else dec_chars n
  let lead : List Char :=
    if sp.radix_lead_p then
      if sp.type = 'x' || sp.type = 'p' then ['0', 'x']
      else if sp.type = 'X' || sp.type = 'P' then ['0', 'X']
      else if sp.type = 'b' then ['0', 'b']
      else if sp.type = 'B' then ['0', 'B']
      else if sp.type = 'o' then ['0']
      else []
    else []
  let sgn : List Char :=
    if negative_p then ['-']
    else if sp.sign = '+' then ['+']
    else if sp.sign = ' ' then [' ']
    else []
  render_aligned sp (sgn ++ lead ++ digits)

/-- Modelled from the spec (§4.5–§4.6): the default formatter for character
spans (`bwformat` for `std::string_view`, implemented in `bw_format.cc`,
which is not among the sources): clip to the precision when one is set, then
align. -/
def bwformat_sv (sp : Spec) (s : List Char) : List Char :=
  render_aligned sp (if 0 ≤ sp.prec then s.take sp.prec.toNat else s)

/-- Modelled from the spec (§4.3): `Err_Bad_Arg_Index` (implemented in
`bw_format.cc`, which is not among the sources) writes a diagnostic literal
naming the bad index and the argument count. -/
def Err_Bad_Arg_Index (i : Int) (n : Nat) : List Char :=
  "\x7b~BAD INDEX ".data ++ int_dec_chars i ++ " of ".data ++ dec_chars n ++ "~\x7d".data

/-- The render loop of `BufferWriter::print_nv` (bwf_base.h:498-541),
specialised to an unbounded sink: literals are copied; a specifier with a
valid type is resolved positionally (with the auto-index cursor `arg_idx`)
or by name, its scratch output is passed through the alignment renderer when
non-empty, and rendering continues. -/
def print_go (names : Spec → List Char) (args : List (Spec → List Char)) :
    List Item → Nat → List Char → List Char
  | [], _, out => out
  | Item.lit l :: rest, arg_idx, out => print_go names args rest arg_idx (out ++ l)
  | Item.spec body :: rest, arg_idx, out =>
    let sp0 := Spec.parse body
    if sp0.has_valid_type then
      let sp := if sp0.name = [] then { sp0 with idx := (arg_idx : Int) } else sp0
      if 0 ≤ sp.idx then
        let lw :=
          if sp.idx < (args.length : Int) then (args.getD sp.idx.toNat (fun _ => [])) sp
          else Err_Bad_Arg_Index sp.idx args.length
        print_go names args rest (arg_idx + 1)
          (if lw ≠ [] then out ++ render_aligned sp lw else out)
      else if sp.name ≠ [] then
        let lw := names sp
        print_go names args rest arg_idx
          (if lw ≠ [] then out ++ render_aligned sp lw else out)
      else
        print_go names args rest arg_idx out
    else
      print_go names args rest arg_idx out

/-- A name resolver that knows no names (used for templates without named
specifiers). -/
def no_names : Spec → List Char := fun _ => []

/-- `BufferWriter::print` for a template and argument formatters:
tokenize, then run the render loop. -/
def print (names : Spec → List Char) (fmt : List Char)
    (args : List (Spec → List Char)) : List Char :=
  print_go names args (tokenize fmt) 0 []

/-- `BoundNames::err_invalid_name` (bwf_base.h:337-340): write the missing
name between `\x7b~` and `~\x7d` via `w.print("\x7b\x7b~\x7b\x7d~\x7d\x7d", spec._name)`. -/
def err_invalid_name (sp : Spec) : List Char :=
  print no_names "\x7b\x7b~\x7b\x7d~\x7d\x7d".data [fun s => bwformat_sv s sp.name]

/-- `GlobalNames::Binding::operator()` (bwf_base.h:342-353): look the
specifier's name up in the bound registry map; found ⇒ invoke the
generator, not found ⇒ write the invalid-name diagnostic.  An empty name
writes nothing. -/
def GlobalBinding (map : List (List Char × (Spec → List Char))) (sp : Spec) : List Char :=
  if sp.name ≠ [] then
    match map.lookup sp.name with
    | some gen => gen sp
    | none => err_invalid_name sp
  else []

/-!  IP address formatters, from `src/swoc++/include/swoc/bwf_ip.h`
(`bw_ip_format.cc` section). -/

/-- The extension prefix recognised by the address formatters: `=` selects
zero fill, `<fillchar>=` a custom fill; otherwise no internal fill
(bwf_ip.h, the `spec._ext` tests of the `IP4Addr` and `in6_addr`
formatters). -/
def ext_align : List Char → Option Char
  | [] => none
  | [c] => if c = '=' then some '0' else none
  | c :: d :: _ => if c = '=' then some '0' else if d = '=' then some c else none

/-- The same extension prefix test, also returning the pad-stripped
extension (`local_spec._ext.remove_prefix` in the `sockaddr` formatter). -/
def ext_strip : List Char → Option Char × List Char
  | [] => (none, [])
  | [c] => if c = '=' then (some '0', []) else (none, [c])
  | c :: d :: rest =>
    if c = '=' then (some '0', d :: rest)
    else if d = '=' then (some c, rest)
    else (none, c :: d :: rest)

/-- `bwformat(BufferWriter&, Spec const&, IP4Addr const&)` (bwf_ip.h): each
octet of the host-order address is rendered as an unsigned integer; the
`=` extension selects right alignment to width 3 with the pad character. -/
def bwformat_ip4 (sp : Spec) (host : Nat) : List Char :=
  let local_spec : Spec :=
    match ext_align sp.ext with
    | some f => { sp with fill := f, min := 3, align := Align.RIGHT }
    | none => { sp with min := 0 }
  Format_Integer local_spec ((host >>> 24) % 256) false ++ '.' ::
  (Format_Integer local_spec ((host >>> 16) % 256) false ++ '.' ::
  (Format_Integer local_spec ((host >>> 8) % 256) false ++ '.' ::
  Format_Integer local_spec (host % 256) false))

/-- The best-run update of the `in6_addr` formatter's scan (bwf_ip.h): on
the second and later zeros of a run, record the run `(c, i)` when there is
no best yet (`!lower`) or the current run is strictly longer
(`upper - lower < spot - current`). -/
def bzr_update (best : Option (Nat × Nat)) (c i : Nat) : Option (Nat × Nat) :=
  match best with
  | some (lo, hi) => if hi - lo < i - c then some (c, i) else some (lo, hi)
  | none => some (c, i)

/-- The zero-run scan of the `in6_addr` formatter (bwf_ip.h): walk the
two-byte groups keeping the start of the current zero run (`current`) and
the best run seen so far (`lower`/`upper`). -/
def best_zero_run_go : List Nat → Nat → Option (Nat × Nat) → Option Nat → Option (Nat × Nat)
  | [], _, best, _ => best
  | q :: rest, i, best, cur =>
    if q = 0 then
      match cur with
      | some c => best_zero_run_go rest (i + 1) (bzr_update best c i) (some c)
      | none => best_zero_run_go rest (i + 1) best (some i)
    else best_zero_run_go rest (i + 1) best none

/-- The best zero run of a group list, as computed by the `in6_addr`
formatter's scan. -/
def best_zero_run (qs : List Nat) : Option (Nat × Nat) := best_zero_run_go qs 0 none none

/-- The output loop of the `in6_addr` formatter over the two-byte groups:
groups inside the best zero run emit only the leading/trailing colons of
the `::` compression; other groups are rendered and separated by colons. -/
def in6_go (sp : Spec) (best : Option (Nat × Nat)) : List Nat → Nat → List Char
  | [], _ => []
  | q :: rest, i =>
    (match best with
     | some (lo, hi) =>
       if lo ≤ i ∧ i ≤ hi then
         (if i = 0 then [':'] else []) ++ (if i = hi then [':'] else [])
       else Format_Integer sp q false ++ (if rest = [] then [] else [':'])
     | none => Format_Integer sp q false ++ (if rest = [] then [] else [':'])) ++
    in6_go sp best rest (i + 1)

/-- `bwformat(BufferWriter&, Spec const&, in6_addr const&)` (bwf_ip.h): the
address is a list of two-byte groups in network order.  With the `=`
extension groups are padded to width 4 and zero compression is disabled;
otherwise the longest zero run found by the scan collapses to `::`.  A
non-numeric type falls back to lower-case hex. -/
def bwformat_in6 (sp : Spec) (qs : List Nat) : List Char :=
  let ea := ext_align sp.ext
  let local_spec : Spec :=
    match ea with
    | some f => { sp with fill := f, min := 4, align := Align.RIGHT }
    | none => { sp with min := 0 }
  let best : Option (Nat × Nat) :=
    match ea with
    | some _ => none
    | none => best_zero_run qs
  let local_spec :=
    if local_spec.has_numeric_type then local_spec else { local_spec with type := 'x' }
  in6_go local_spec best qs 0

/-- A socket endpoint for the composite formatter: an IPv4 or IPv6 address
with a port, or an address of another family.  Numeric families follow
`AF_INET = 2`, `AF_INET6 = 10`. -/
inductive SockAddr where
  | ip4 (host : Nat) (port : Nat)
  | ip6 (quads : List Nat) (port : Nat)
  | other (family : Nat)
deriving DecidableEq, Repr

/-- `sa_family` of an endpoint. -/
def SockAddr.family : SockAddr → Nat
  | .ip4 _ _ => 2
  | .ip6 _ _ => 10
  | .other f => f

/-- `IPEndpoint::host_order_port` of an endpoint (0 for non-IP families). -/
def SockAddr.port : SockAddr → Nat
  | .ip4 _ p => p
  | .ip6 _ p => p
  | .other _ => 0

/-- Modelled from the spec (§4.6): `family_name`, the textual name of an
address family (the `sockaddr` formatter calls `IPEndpoint::family_name`,
which is not among the sources; the names follow the `family_name` helper
at the top of the `bw_ip_format.cc` section). -/
def family_name (f : Nat) : List Char :=
  if f = 2 then "ipv4".data
  else if f = 10 then "ipv6".data
  else if f = 1 then "unix".data
  else if f = 0 then "unspec".data
  else "unknown".data

/-- The flag scan of the `sockaddr` formatter: each `a`/`p`/`f` character
(either case) of the pad-stripped extension turns on the corresponding
sub-part. -/
def sa_flags : List Char → Bool × Bool × Bool → Bool × Bool × Bool
  | [], acc => acc
  | c :: rest, (a, p, f) =>
    sa_flags rest
      (if c = 'a' ∨ c = 'A' then (true, p, f)
       else if c = 'p' ∨ c = 'P' then (a, true, f)
       else if c = 'f' ∨ c = 'F' then (a, p, true)
       else (a, p, f))

/-- `bwformat(BufferWriter&, Spec const&, sockaddr const*)` (bwf_ip.h): the
composite endpoint formatter.  The pad-stripped extension selects the
sub-parts (default: address and port); an IPv6 address is bracketed when a
port is also emitted; the family name is appended after a space.  A
pointer-typed specifier formats the pointer itself, which is outside this
embedding and represented by an opaque marker. -/
def bwformat_sockaddr (sp : Spec) (sa : SockAddr) : List Char :=
  if sp.type = 'p' ∨ sp.type = 'P' then "«pointer»".data
  else
    let es := ext_strip sp.ext
    let local_ext := es.2
    let flags : Bool × Bool × Bool :=
      if local_ext ≠ [] then sa_flags local_ext (false, false, false)
      else (true, true, false)
    let addr_p := flags.1
    let port_p := flags.2.1
    let family_p := flags.2.2
    let addr_part : List Char :=
      if addr_p then
        (match sa with
         | .ip4 host _ => bwformat_ip4 sp host
         | .ip6 qs _ =>
           (if port_p then ['['] else []) ++ bwformat_in6 sp qs ++
           (if port_p then [']'] else [])
         | .other f => "*Not IP address [".data ++ dec_chars f ++ "]*".data) ++
        (if port_p then [':'] else [])
      else []
    let port_part : List Char :=
      if port_p then
        let port_spec : Spec :=
          match es.1 with
          | some c => { sp with ext := local_ext, min := 5, fill := c, align := Align.RIGHT }
          | none => { sp with ext := local_ext, min := 0 }
        Format_Integer port_spec sa.port false
      else []
    let family_part : List Char :=
      if family_p then
        let fam_spec : Spec :=
          match es.1 with
          | some c => { sp with ext := local_ext, min := 0, fill := c, align := Align.RIGHT }
          | none => { sp with ext := local_ext, min := 0 }
        (if addr_p ∨ port_p then [' '] else []) ++
        (if sp.has_numeric_type then Format_Integer fam_spec sa.family false
         else bwformat_sv fam_spec (family_name sa.family))
      else []
    addr_part ++ port_part ++ family_part

/-!  Specification-side definitions used to state the claims. -/

/-- Number of render-loop steps of an item list that consume a positional
argument slot (valid type and either an empty name, which auto-indexes, or
an explicit non-negative index). -/
def posCountItem : Item → Nat
  | Item.lit _ => 0
  | Item.spec body =>
    let sp := Spec.parse body
    if sp.has_valid_type then (if sp.name = [] ∨ 0 ≤ sp.idx then 1 else 0) else 0

/-- Total positional-consumption count of an item list. -/
def posCount : List Item → Nat
  | [] => 0
  | it :: rest => posCountItem it + posCount rest

/-- Number of render-loop steps that consume a positional slot while
carrying no explicit index (empty name): what the claimed cursor would
count. -/
def autoCountItem : Item → Nat
  | Item.lit _ => 0
  | Item.spec body =>
    let sp := Spec.parse body
    if sp.has_valid_type then (if sp.name = [] then 1 else 0) else 0

/-- Total auto-indexed count of an item list. -/
def autoCount : List Item → Nat
  | [] => 0
  | it :: rest => autoCountItem it + autoCount rest

/-- Groups `a` through `b` of the list are all zero. -/
def allZero (qs : List Nat) (a b : Nat) : Prop :=
  ∀ j, a ≤ j → j ≤ b → qs.getD j 1 = 0

/-- The local specifier the `in6_addr` formatter uses for groups of a
default-typed specifier without the fixed-alignment extension: hex, no
minimum width. -/
def in6_default_spec : Spec := { type := 'x' }

/-- Specification-side description of a zero-compressed IPv6 rendering:
hex groups before the run each followed by a colon, the `::` (a leading
colon only when the run starts the address), then the remaining hex groups
colon-separated. -/
def in6_compressed (qs : List Nat) (lo hi : Nat) : List Char :=
  ((qs.take lo).map (fun q => hex_chars q ++ [':'])).flatten ++
  (if lo = 0 then [':'] else []) ++ [':'] ++
  List.intercalate [':'] ((qs.drop (hi + 1)).map hex_chars)

/-- Specification-side description of an uncompressed IPv6 rendering: all
groups as hex, colon-separated. -/
def in6_uncompressed (qs : List Nat) : List Char :=
  List.intercalate [':'] (qs.map hex_chars)

/-- Left-pad decimal digits to width 3 with a pad character: the claimed
per-octet rendering of the zero-padded IPv4 form. -/
def lpad3 (c : Char) (n : Nat) : List Char :=
  List.replicate (3 - (dec_chars n).length) c ++ dec_chars n

/-- The flag characters of the composite endpoint formatter's extension. -/
def flag_chars : List Char := ['a', 'A', 'p', 'P', 'f', 'F']

/-- Specification-side description of the composite endpoint rendering for
a given selection of sub-parts (address, port, family): the address part
(IPv6 bracketed exactly when the port is also emitted) followed by a colon
and the port, then the family after a space.  Compared against
`bwformat_sockaddr` for the refinement claim. -/
def endpoint_parts (sp : Spec) (addr_p port_p family_p : Bool) (sa : SockAddr) : List Char :=
  (if addr_p then
     (match sa with
      | .ip4 host _ => bwformat_ip4 sp host
      | .ip6 qs _ =>
        (if port_p then ['['] else []) ++ bwformat_in6 sp qs ++
        (if port_p then [']'] else [])
      | .other f => "*Not IP address [".data ++ dec_chars f ++ "]*".data) ++
     (if port_p then [':'] else [])
   else []) ++
  (if port_p then Format_Integer { sp with min := 0 } sa.port false else []) ++
  (if family_p then
     (if addr_p || port_p then [' '] else []) ++
     (if sp.has_numeric_type then Format_Integer { sp with min := 0 } sa.family false
      else bwformat_sv { sp with min := 0 } (family_name sa.family))
   else [])

/-- Two specifiers agree on every formatting field (everything except the
argument-resolution fields `idx` and `name`). -/
def fmtAgree (s t : Spec) : Prop :=
  s.fill = t.fill ∧ s.sign = t.sign ∧ s.align = t.align ∧ s.type = t.type ∧
  s.radix_lead_p = t.radix_lead_p ∧ s.min = t.min ∧ s.prec = t.prec ∧
  s.max = t.max ∧ s.ext = t.ext

/-! ### Helper lemmas -/

lemma toDigits_length_le (b n : Nat) (hb : 2 ≤ b) : (Nat.toDigits b n).length ≤ n + 1 := by
  have h1 : n < b ^ (n + 1) := by
    calc n < b ^ n := Nat.lt_pow_self (by omega) n
    _ ≤ b ^ (n + 1) := Nat.pow_le_pow_right (by omega) (by omega)
  simpa [Nat.toDigits] using Nat.toDigitsCore_length b hb (n + 1) n (n + 1) h1 (by omega)

lemma dec_chars_length_le (n : Nat) : (dec_chars n).length ≤ n + 1 :=
  toDigits_length_le 10 n (by omega)

lemma hex_chars_length_le (n : Nat) : (hex_chars n).length ≤ n + 1 :=
  toDigits_length_le 16 n (by omega)

lemma render_aligned_min0 (sp : Spec) (raw : List Char) (hm : sp.min = 0)
    (hx : raw.length ≤ sp.max) : render_aligned sp raw = raw := by
  simp only [render_aligned, hm]
  rw [if_pos (Nat.zero_le _), if_neg (by omega)]

lemma render_aligned_congr (s t : Spec) (h : fmtAgree s t) (raw : List Char) :
    render_aligned s raw = render_aligned t raw := by
  obtain ⟨h1, h2, h3, h4, h5, h6, h7, h8, h9⟩ := h
  simp only [render_aligned, h1, h3, h6, h8]

lemma Format_Integer_congr (s t : Spec) (h : fmtAgree s t) (n : Nat) (p : Bool) :
    Format_Integer s n p = Format_Integer t n p := by
  obtain ⟨h1, h2, h3, h4, h5, h6, h7, h8, h9⟩ := h
  simp only [Format_Integer, h2, h4, h5]
  exact render_aligned_congr s t ⟨h1, h2, h3, h4, h5, h6, h7, h8, h9⟩ _

lemma Format_Integer_hex (sp : Spec) (q : Nat) (ht : sp.type = 'x') (hs : sp.sign = '-')
    (hr : sp.radix_lead_p = false) (hm : sp.min = 0) (hx : sp.max = UINT_MAX)
    (hq : q < UINT_MAX) : Format_Integer sp q false = hex_chars q := by
  have hlen : (hex_chars q).length ≤ sp.max := by
    rw [hx]; exact le_trans (hex_chars_length_le q) (by omega)
  simp only [Format_Integer, ht, hs, hr]
  show render_aligned sp (hex_chars q) = hex_chars q
  exact render_aligned_min0 sp _ hm hlen

lemma Format_Integer_dec0 (sp : Spec) (n : Nat) (ht : sp.type = 'g') (hs : sp.sign = '-')
    (hr : sp.radix_lead_p = false) (hm : sp.min = 0) (hx : sp.max = UINT_MAX)
    (hn : n < UINT_MAX) : Format_Integer sp n false = dec_chars n := by
  have hlen : (dec_chars n).length ≤ sp.max := by
    rw [hx]; exact le_trans (dec_chars_length_le n) (by omega)
  simp only [Format_Integer, ht, hs, hr]
  show render_aligned sp (dec_chars n) = dec_chars n
  exact render_aligned_min0 sp _ hm hlen

lemma Format_Integer_dec_pad (sp : Spec) (n : Nat) (ht : sp.type = 'g') (hs : sp.sign = '-')
    (hr : sp.radix_lead_p = false) (hm : sp.min = 3) (ha : sp.align = Align.RIGHT)
    (hx : sp.max = UINT_MAX) (hn : n < UINT_MAX) :
    Format_Integer sp n false = lpad3 sp.fill n := by
  have hlen : (dec_chars n).length ≤ sp.max := by
    rw [hx]; exact le_trans (dec_chars_length_le n) (by omega)
  simp only [Format_Integer, ht, hs, hr]
  show render_aligned sp (dec_chars n) = lpad3 sp.fill n
  by_cases h3 : 3 ≤ (dec_chars n).length
  · simp only [render_aligned]
    rw [if_pos (show sp.min ≤ (dec_chars n).length by omega), if_neg (by omega)]
    simp [lpad3, Nat.sub_eq_zero_of_le h3]
  · simp only [render_aligned]
    rw [if_neg (show ¬ sp.min ≤ (dec_chars n).length by omega), ha]
    simp [lpad3, fills, hm]

lemma print_go_append (names : Spec → List Char) (args : List (Spec → List Char)) :
    ∀ (l1 l2 : List Item) (n : Nat) (out : List Char),
    print_go names args (l1 ++ l2) n out =
      print_go names args l2 (n + posCount l1) (print_go names args l1 n out) := by
  intro l1
  induction l1 with
  | nil => intro l2 n out; simp [print_go, posCount]
  | cons it rest ih =>
    intro l2 n out
    cases it with
    | lit s =>
      simp only [List.cons_append, print_go, posCount, posCountItem, List.append_eq]
      rw [ih, Nat.zero_add]
    | spec body =>
      simp only [List.cons_append, print_go, posCount, posCountItem, List.append_eq]
      by_cases hv : (Spec.parse body).has_valid_type
      · simp only [hv, if_true]
        by_cases hn : (Spec.parse body).name = []
        · have h0 : (0 : Int) ≤ ((n : Int)) := Int.ofNat_nonneg n
          simp only [hn, if_true, if_pos h0, true_or]
          rw [ih, show n + (1 + posCount rest) = n + 1 + posCount rest by omega]
        · simp only [hn, if_false]
          by_cases hi : (0 : Int) ≤ (Spec.parse body).idx
          · simp only [hi, if_pos hi, or_true, if_true]
            rw [ih, show n + (1 + posCount rest) = n + 1 + posCount rest by omega]
          · simp only [if_neg hi, or_false, if_neg (show ¬(True ∧ False) by simp)]
            simp only [if_pos (show (Spec.parse body).name ≠ [] from hn), hn,
              if_neg (show ¬((Spec.parse body).name = [] ∨ (0:Int) ≤ (Spec.parse body).idx) by
                simp [hn, hi])]
            rw [ih]
            simp only [false_or, if_neg hi, Nat.zero_add]
      · simp only [if_neg (show ¬((Spec.parse body).has_valid_type = true) by simpa using hv)]
        rw [ih, Nat.zero_add]

lemma err_invalid_name_eq (sp : Spec) (h : sp.name ≠ []) (hl : sp.name.length ≤ UINT_MAX) :
    err_invalid_name sp = '\x7b' :: '~' :: (sp.name ++ ['~', '\x7d']) := by
  have hsv : bwformat_sv { idx := (0 : Int) } sp.name = sp.name := by
    unfold bwformat_sv
    rw [if_neg (by decide)]
    exact render_aligned_min0 _ _ rfl hl
  have hra : render_aligned ({ idx := (0 : Int) } : Spec) sp.name = sp.name :=
    render_aligned_min0 _ _ rfl hl
  show (if bwformat_sv { idx := (0 : Int) } sp.name ≠ [] then
          ([] ++ ['\x7b', '~']) ++
            render_aligned ({ idx := (0 : Int) } : Spec)
              (bwformat_sv { idx := (0 : Int) } sp.name)
        else ([] ++ ['\x7b', '~'])) ++ ['~', '\x7d'] =
      '\x7b' :: '~' :: (sp.name ++ ['~', '\x7d'])
  rw [hsv, if_pos h, hra]
  simp

/-! ### Claim theorems -/

/-- C8: rendering the template consisting of the single explicit positional
specifier with index 0 against one argument produces byte-for-byte the same
output as rendering the empty specifier against the same argument, for any
argument whose formatter depends only on the formatting fields of the
specifier. -/
theorem C8_explicit_zero_equals_auto (names : Spec → List Char) (f : Spec → List Char)
    (hf : ∀ s t : Spec, fmtAgree s t → f s = f t) :
    print names "\x7b0\x7d".data [f] = print names "\x7b\x7d".data [f] := by
  have hagree : fmtAgree ({ name := ['0'], idx := (0 : Int) } : Spec)
      ({ idx := (0 : Int) } : Spec) :=
    ⟨rfl, rfl, rfl, rfl, rfl, rfl, rfl, rfl, rfl⟩
  show (if f { name := ['0'], idx := (0 : Int) } ≠ [] then
          [] ++ render_aligned ({ name := ['0'], idx := (0 : Int) } : Spec)
            (f { name := ['0'], idx := (0 : Int) })
        else []) =
       (if f { idx := (0 : Int) } ≠ [] then
          [] ++ render_aligned ({ idx := (0 : Int) } : Spec) (f { idx := (0 : Int) })
        else [])
  rw [hf _ _ hagree, render_aligned_congr _ _ hagree]

/-- Witness for C8 at a concrete integer argument. -/
theorem C8_witness :
    print no_names "\x7b0\x7d".data [fun sp => Format_Integer sp 42 false] =
      print no_names "\x7b\x7d".data [fun sp => Format_Integer sp 42 false] :=
  C8_explicit_zero_equals_auto no_names _ (fun s t h => Format_Integer_congr s t h 42 false)

/-- C9: under SignAligned alignment, content beginning with a sign
character and shorter than the minimum width renders as the sign first,
then the fill characters, then the remaining content; in particular -7 with
fill '0' and minimum width 4 yields "-007" and not "00-7". -/
theorem C9_sign_aligned_padding :
    (∀ (sp : Spec) (c : Char) (rest : List Char), sp.align = Align.SIGN →
      is_sign_char c = true → (c :: rest).length < sp.min →
      render_aligned sp (c :: rest) =
        c :: (fills sp.fill (sp.min - (c :: rest).length) ++ rest)) ∧
    Format_Integer { fill := '0', align := Align.SIGN, min := 4 } 7 true = "-007".data ∧
    "-007".data ≠ "00-7".data := by
  refine ⟨?_, by decide, by decide⟩
  intro sp c rest ha hc hlt
  simp only [render_aligned, ha]
  rw [if_neg (by omega)]
  simp [hc]

/-- Witness for C9: sign-aligned rendering of the content "-7" at width 4
with fill '0'. -/
theorem C9_witness :
    render_aligned { fill := '0', align := Align.SIGN, min := 4 } ('-' :: ['7']) =
      '-' :: (fills '0' (4 - ('-' :: ['7']).length) ++ ['7']) :=
  C9_sign_aligned_padding.1 { fill := '0', align := Align.SIGN, min := 4 } '-' ['7']
    rfl (by decide) (by decide)

/-- C2: a positional index at or beyond the argument count does not abort
the render: the step writes the bad-index diagnostic naming the index and
the count into the destination and rendering continues with the remaining
items; in particular the template of the single specifier with index 5
against two arguments yields the diagnostic containing 5 and 2. -/
theorem C2_bad_index_not_fatal :
    (∀ (names : Spec → List Char) (args : List (Spec → List Char))
       (body : List Char) (l2 : List Item) (n : Nat) (out : List Char),
      (Spec.parse body).has_valid_type = true →
      (Spec.parse body).name ≠ [] →
      ((args.length : Int)) ≤ (Spec.parse body).idx →
      print_go names args (Item.spec body :: l2) n out =
        print_go names args l2 (n + 1)
          (out ++ render_aligned (Spec.parse body)
             (Err_Bad_Arg_Index (Spec.parse body).idx args.length))) ∧
    print no_names "\x7b5\x7d".data [fun _ => ['a'], fun _ => ['b']] =
      "\x7b~BAD INDEX 5 of 2~\x7d".data := by
  constructor
  · intro names args body l2 n out hv hn hge
    have hi : (0 : Int) ≤ (Spec.parse body).idx :=
      le_trans (Int.ofNat_nonneg args.length) hge
    have hlt : ¬ ((Spec.parse body).idx < (args.length : Int)) := by omega
    have hne : Err_Bad_Arg_Index (Spec.parse body).idx args.length ≠ [] := by
      show ('\x7b' :: _) ≠ []
      exact List.cons_ne_nil _ _
    simp only [print_go, hv, if_true, if_neg hn, if_pos hi, if_neg hlt, if_pos hne]
  · decide

/-- Witness for C2: one bad-index step at index 5 with two arguments. -/
theorem C2_witness :
    print_go no_names [fun _ => ['a'], fun _ => ['b']] [Item.spec ['5']] 0 [] =
      print_go no_names [fun _ => ['a'], fun _ => ['b']] [] 1
        ([] ++ render_aligned (Spec.parse ['5'])
           (Err_Bad_Arg_Index (Spec.parse ['5']).idx 2)) :=
  C2_bad_index_not_fatal.1 no_names [fun _ => ['a'], fun _ => ['b']] ['5'] [] 0 []
    (by decide) (by decide) (by decide)

/-- C3: resolution of a named specifier against the bound registry: a name
present in the map invokes its generator on the output; a missing name is
not fatal and writes the diagnostic `\x7b~<name>~\x7d` instead. -/
theorem C3_name_resolution :
    (∀ (map : List (List Char × (Spec → List Char))) (sp : Spec)
       (gen : Spec → List Char),
      sp.name ≠ [] → map.lookup sp.name = some gen →
      GlobalBinding map sp = gen sp) ∧
    (∀ (map : List (List Char × (Spec → List Char))) (sp : Spec),
      sp.name ≠ [] → map.lookup sp.name = none → sp.name.length ≤ UINT_MAX →
      GlobalBinding map sp = '\x7b' :: '~' :: (sp.name ++ ['~', '\x7d'])) := by
  constructor
  · intro map sp gen hn hfound
    simp [GlobalBinding, hn, hfound]
  · intro map sp hn hmiss hl
    simp only [GlobalBinding, if_pos hn, hmiss]
    exact err_invalid_name_eq sp hn hl

/-- Witness for C3: a present name invokes its generator; a missing name
writes the diagnostic. -/
theorem C3_witness :
    GlobalBinding [("x".data, fun _ => ['X'])] { name := "x".data } = ['X'] ∧
    GlobalBinding [] { name := "missing".data } =
      '\x7b' :: '~' :: ("missing".data ++ ['~', '\x7d']) :=
  ⟨C3_name_resolution.1 [("x".data, fun _ => ['X'])] { name := "x".data } _
      (by decide) rfl,
   C3_name_resolution.2 [] { name := "missing".data } (by decide) rfl (by decide)⟩

/-- C7 (amended): a specifier whose type character is unknown is marked
invalid-type; no exception is raised and the render step silently skips
the specifier, emitting nothing for it and continuing with the rest of
the template. -/
theorem C7_invalid_type_skipped :
    (∀ c : Char, is_type c = false → align_of c = Align.NONE →
      is_sign_char c = false → c.isDigit = false → c ≠ '#' → c ≠ '.' →
      c ≠ ',' → c ≠ ':' →
      (Spec.parse [':', c]).has_valid_type = false) ∧
    (∀ (names : Spec → List Char) (args : List (Spec → List Char))
       (body : List Char) (l2 : List Item) (n : Nat) (out : List Char),
      (Spec.parse body).has_valid_type = false →
      print_go names args (Item.spec body :: l2) n out =
        print_go names args l2 n out) := by
  constructor
  · intro c htype halign hsign hdig hhash hdot hcomma hcolon
    show (parse_fmt [c] {}).has_valid_type = false
    have h1 : parse_fill_align ([c], {}) = ([c], {}) := by
      simp [parse_fill_align, halign]
    have h2 : parse_sign ([c], {}) = ([c], {}) := by
      simp [parse_sign, hsign]
    have h3 : parse_radix ([c], {}) = ([c], {}) := by
      simp [parse_radix, hhash]
    have h4 : parse_min ([c], {}) = ([c], {}) := by
      simp [parse_min, List.takeWhile, List.dropWhile, hdig]
    have h5 : parse_prec ([c], {}) = ([c], {}) := by
      simp [parse_prec, hdot]
    have h6 : parse_max ([c], {}) = ([c], {}) := by
      simp [parse_max, hcomma]
    have h7 : parse_type_ext ([c], ({} : Spec)) = { type := INVALID_TYPE } := by
      simp [parse_type_ext, hcolon, htype]
    unfold parse_fmt
    rw [h1, h2, h3, h4, h5, h6, h7]
    decide
  · intro names args body l2 n out hv
    simp only [print_go, hv, Bool.false_eq_true, if_false]

/-- Witness for C7 at the unknown type character `q`. -/
theorem C7_witness :
    (Spec.parse [':', 'q']).has_valid_type = false ∧
    print_go no_names [] [Item.spec [':', 'q']] 0 [] = print_go no_names [] [] 0 [] :=
  ⟨C7_invalid_type_skipped.1 'q' (by decide) (by decide) (by decide) (by decide)
      (by decide) (by decide) (by decide) (by decide),
   C7_invalid_type_skipped.2 no_names [] [':', 'q'] [] 0 []
     (C7_invalid_type_skipped.1 'q' (by decide) (by decide) (by decide) (by decide)
       (by decide) (by decide) (by decide) (by decide))⟩

/-- Counterexample for C7 as stated: the template `a\x7b:q\x7db` with an
unknown type character renders as exactly the surrounding literals `ab` —
no visible error marker is substituted for the invalid specifier. -/
theorem C7_counterexample :
    print no_names "a\x7b:q\x7db".data [] = "ab".data := by decide

/-- C1 (amended): every rendered positional specifier — explicitly indexed
or not — advances the auto-index cursor; a specifier with no explicit index
receives the argument at the cursor position counting all previously
rendered positional specifiers, indexed and non-indexed alike. -/
theorem C1_cursor_counts_all_positional
    (names : Spec → List Char) (args : List (Spec → List Char))
    (l1 : List Item) (body : List Char) (l2 : List Item) (out : List Char)
    (hv : (Spec.parse body).has_valid_type = true)
    (hn : (Spec.parse body).name = []) :
    print_go names args (l1 ++ Item.spec body :: l2) 0 out =
      (let i := posCount l1
       let sp : Spec := { Spec.parse body with idx := (i : Int) }
       let lw := if (i : Int) < (args.length : Int)
                 then (args.getD i (fun _ => [])) sp
                 else Err_Bad_Arg_Index (i : Int) args.length
       print_go names args l2 (i + 1)
         (if lw ≠ [] then print_go names args l1 0 out ++ render_aligned sp lw
          else print_go names args l1 0 out)) := by
  rw [print_go_append]
  have h0 : (0 : Int) ≤ ((posCount l1 : Nat) : Int) := Int.ofNat_nonneg _
  simp only [print_go, hv, if_true, hn, if_pos rfl, if_pos h0, Nat.zero_add,
    Int.toNat_ofNat]

/-- Witness for C1 (amended): the second, non-indexed specifier of
`\x7b1\x7d\x7b\x7d` receives the argument at cursor position 1 because the
explicitly indexed specifier before it advanced the cursor. -/
theorem C1_witness :
    print_go no_names [fun _ => ['a'], fun _ => ['b']]
        ([Item.spec ['1']] ++ Item.spec [] :: []) 0 [] =
      (let i := posCount [Item.spec ['1']]
       let sp : Spec := { Spec.parse [] with idx := (i : Int) }
       let lw := if (i : Int) < ((2 : Nat) : Int)
                 then ([fun _ => ['a'], fun _ => ['b']].getD i (fun _ => [])) sp
                 else Err_Bad_Arg_Index (i : Int) 2
       print_go no_names [fun _ => ['a'], fun _ => ['b']] [] (i + 1)
         (if lw ≠ [] then
            print_go no_names [fun _ => ['a'], fun _ => ['b']] [Item.spec ['1']] 0 [] ++
              render_aligned sp lw
          else print_go no_names [fun _ => ['a'], fun _ => ['b']] [Item.spec ['1']] 0 [])) :=
  C1_cursor_counts_all_positional no_names [fun _ => ['a'], fun _ => ['b']]
    [Item.spec ['1']] [] [] [] (by decide) (by decide)

/-- Counterexample for C1 as stated: rendering `\x7b1\x7d\x7b\x7d` with
arguments rendering `a` and `b` yields `bb` — the non-indexed specifier
receives argument 1, not argument 0, because the explicitly indexed
specifier changed the cursor; the claim predicts `ba`. -/
theorem C1_counterexample :
    print no_names "\x7b1\x7d\x7b\x7d".data [fun _ => ['a'], fun _ => ['b']] = ['b', 'b'] ∧
    print no_names "\x7b1\x7d\x7b\x7d".data [fun _ => ['a'], fun _ => ['b']] ≠ ['b', 'a'] := by
  constructor <;> decide

/-- C6: with the zero-pad extension (`=`, or a fill character followed by
`=`), each octet of an IPv4 address renders as an unsigned decimal
right-aligned to minimum width 3 with the pad character, octets separated
by `.`; address 1.2.3.4 with the `=` extension renders as
`001.002.003.004`. -/
theorem C6_ip4_zero_pad :
    (∀ host : Nat, bwformat_ip4 { ext := ['='] } host =
      lpad3 '0' ((host >>> 24) % 256) ++ '.' ::
      (lpad3 '0' ((host >>> 16) % 256) ++ '.' ::
      (lpad3 '0' ((host >>> 8) % 256) ++ '.' :: lpad3 '0' (host % 256)))) ∧
    (∀ (host : Nat) (c : Char), c ≠ '=' →
      bwformat_ip4 { ext := [c, '='] } host =
      lpad3 c ((host >>> 24) % 256) ++ '.' ::
      (lpad3 c ((host >>> 16) % 256) ++ '.' ::
      (lpad3 c ((host >>> 8) % 256) ++ '.' :: lpad3 c (host % 256)))) ∧
    bwformat_ip4 { ext := ['='] } 16909060 = "001.002.003.004".data := by
  have hb : ∀ x : Nat, x % 256 < UINT_MAX :=
    fun x => lt_trans (Nat.mod_lt x (by omega)) (by decide)
  refine ⟨?_, ?_, by decide⟩
  · intro host
    show Format_Integer { fill := '0', align := Align.RIGHT, min := 3, ext := ['='] }
        ((host >>> 24) % 256) false ++ '.' ::
      (Format_Integer { fill := '0', align := Align.RIGHT, min := 3, ext := ['='] }
        ((host >>> 16) % 256) false ++ '.' ::
      (Format_Integer { fill := '0', align := Align.RIGHT, min := 3, ext := ['='] }
        ((host >>> 8) % 256) false ++ '.' ::
      Format_Integer { fill := '0', align := Align.RIGHT, min := 3, ext := ['='] }
        (host % 256) false)) = _
    rw [Format_Integer_dec_pad _ _ rfl rfl rfl rfl rfl rfl (hb _),
        Format_Integer_dec_pad _ _ rfl rfl rfl rfl rfl rfl (hb _),
        Format_Integer_dec_pad _ _ rfl rfl rfl rfl rfl rfl (hb _),
        Format_Integer_dec_pad _ _ rfl rfl rfl rfl rfl rfl (hb _)]
  · intro host c hc
    have he : ext_align [c, '='] = some c := by simp [ext_align, hc]
    simp only [bwformat_ip4, he]
    rw [Format_Integer_dec_pad _ _ rfl rfl rfl rfl rfl rfl (hb _),
        Format_Integer_dec_pad _ _ rfl rfl rfl rfl rfl rfl (hb _),
        Format_Integer_dec_pad _ _ rfl rfl rfl rfl rfl rfl (hb _),
        Format_Integer_dec_pad _ _ rfl rfl rfl rfl rfl rfl (hb _)]

/-- Witness for C6 with the custom fill character `*`. -/
theorem C6_witness :
    bwformat_ip4 { ext := ['*', '='] } 16909060 =
      lpad3 '*' ((16909060 >>> 24) % 256) ++ '.' ::
      (lpad3 '*' ((16909060 >>> 16) % 256) ++ '.' ::
      (lpad3 '*' ((16909060 >>> 8) % 256) ++ '.' :: lpad3 '*' (16909060 % 256))) :=
  C6_ip4_zero_pad.2.1 16909060 '*' (by decide)

/-- Loop-invariant characterisation of the zero-run scan: on termination
the recorded pair is a zero run of length at least two, no zero run in the
list is longer, and among equally long runs the recorded one starts first;
when nothing is recorded the list has no zero run of length two. -/
lemma bzr_go_char (qs : List Nat) :
    ∀ (suf : List Nat) (i : Nat) (best : Option (Nat × Nat)) (cur : Option Nat),
    suf = qs.drop i → i ≤ qs.length →
    (∀ c, cur = some c → c < i ∧ (∀ j, c ≤ j → j < i → qs.getD j 1 = 0) ∧
        (c = 0 ∨ qs.getD (c - 1) 1 ≠ 0)) →
    (cur = none → ∀ j, j + 1 = i → qs.getD j 1 ≠ 0) →
    (∀ lo hi, best = some (lo, hi) →
        lo < hi ∧ hi < i ∧ (∀ j, lo ≤ j → j ≤ hi → qs.getD j 1 = 0) ∧
        (∀ a b, a ≤ b → b < i → (∀ j, a ≤ j → j ≤ b → qs.getD j 1 = 0) →
            b - a ≤ hi - lo ∧ (b - a = hi - lo → lo ≤ a)) ∧
        (∀ c, cur = some c → lo ≤ c)) →
    (best = none → ∀ a b, a < b → b < i →
        ¬(∀ j, a ≤ j → j ≤ b → qs.getD j 1 = 0)) →
    ((∀ lo hi, best_zero_run_go suf i best cur = some (lo, hi) →
        lo < hi ∧ hi < qs.length ∧ (∀ j, lo ≤ j → j ≤ hi → qs.getD j 1 = 0) ∧
        (∀ a b, a ≤ b → b < qs.length → (∀ j, a ≤ j → j ≤ b → qs.getD j 1 = 0) →
            b - a ≤ hi - lo ∧ (b - a = hi - lo → lo ≤ a))) ∧
     (best_zero_run_go suf i best cur = none → ∀ a b, a < b → b < qs.length →
        ¬(∀ j, a ≤ j → j ≤ b → qs.getD j 1 = 0))) := by
  intro suf
  induction suf with
  | nil =>
    intro i best cur hsuf hile hcur hcurn hbest hbestn
    have hlen : qs.length ≤ i := by
      by_contra hlt
      push_neg at hlt
      have hne : qs.drop i ≠ [] := by
        apply List.ne_nil_of_length_pos
        rw [List.length_drop]
        omega
      exact hne hsuf.symm
    constructor
    · intro lo hi hb
      obtain ⟨h1, h2, h3, h4, _⟩ := hbest lo hi hb
      exact ⟨h1, by omega, h3, fun a b hab hblt hz => h4 a b hab (by omega) hz⟩
    · intro hb a b hab hblt
      exact hbestn hb a b hab (by omega)
  | cons q rest ih =>
    intro i best cur hsuf hile hcur hcurn hbest hbestn
    have hilt : i < qs.length := by
      by_contra hge
      push_neg at hge
      rw [List.drop_eq_nil_of_le hge] at hsuf
      exact List.noConfusion hsuf
    have h0 : qs[i]? = some q := by
      have h := List.getElem?_drop qs i 0
      rw [← hsuf] at h
      simpa using h.symm
    have hqi : qs.getD i 1 = q := by
      rw [List.getD_eq_getElem?_getD, h0]
      rfl
    have hrest : rest = qs.drop (i + 1) := by
      have hdd : qs.drop (i + 1) = (qs.drop i).drop 1 := by rw [List.drop_drop]
      rw [hdd, ← hsuf]
      rfl
    by_cases hq : q = 0
    · simp only [best_zero_run_go, if_pos hq]
      cases cur with
      | none =>
        apply ih (i + 1) best (some i) hrest (by omega)
        · intro c hc
          injection hc with hc
          subst hc
          refine ⟨by omega, ?_, ?_⟩
          · intro j hj1 hj2
            have hj : j = i := by omega
            rw [hj, hqi]
            exact hq
          · by_cases hi0 : i = 0
            · exact Or.inl hi0
            · exact Or.inr (hcurn rfl (i - 1) (by omega))
        · intro hcontra
          exact Option.noConfusion hcontra
        · intro lo hi hb
          obtain ⟨h1, h2, h3, h4, _⟩ := hbest lo hi hb
          refine ⟨h1, by omega, h3, ?_, ?_⟩
          · intro a b hab hblt hz
            by_cases hbi : b < i
            · exact h4 a b hab hbi hz
            · have hbe : b = i := by omega
              have hae : a = i := by
                by_contra hane
                have hai : a < i := by omega
                have hiz : qs.getD (i - 1) 1 = 0 := hz (i - 1) (by omega) (by omega)
                exact hcurn rfl (i - 1) (by omega) hiz
              refine ⟨by omega, ?_⟩
              intro heq
              omega
          · intro c hc
            injection hc with hc
            omega
        · intro hb a b hab hblt hz
          by_cases hbi : b < i
          · exact hbestn hb a b hab hbi hz
          · have hbe : b = i := by omega
            have hiz : qs.getD (i - 1) 1 = 0 := hz (i - 1) (by omega) (by omega)
            exact hcurn rfl (i - 1) (by omega) hiz
      | some c =>
        obtain ⟨hci, hzeros, hstart⟩ := hcur c rfl
        have hac : ∀ a, (∀ j, a ≤ j → j ≤ i → qs.getD j 1 = 0) → c ≤ a := by
          intro a hz
          by_contra hlt
          push_neg at hlt
          rcases hstart with h0' | hne
          · omega
          · exact hne (hz (c - 1) (by omega) (by omega))
        have hczero : ∀ j, c ≤ j → j ≤ i → qs.getD j 1 = 0 := by
          intro j hj1 hj2
          by_cases hji : j < i
          · exact hzeros j hj1 hji
          · have : j = i := by omega
            rw [this, hqi]
            exact hq
        cases best with
        | none =>
          apply ih (i + 1) (some (c, i)) (some c) hrest (by omega)
          · intro c' hc'
            injection hc' with hc'
            subst hc'
            exact ⟨by omega, fun j h1 h2 => hczero j h1 (by omega), hstart⟩
          · intro hcontra
            exact Option.noConfusion hcontra
          · intro lo hi hb
            injection hb with hb
            injection hb with hb1 hb2
            subst hb1
            subst hb2
            refine ⟨by omega, by omega, hczero, ?_, ?_⟩
            · intro a b hab hblt hz
              by_cases hbi : b < i
              · by_cases habs : a < b
                · exact absurd hz (hbestn rfl a b habs hbi)
                · have : a = b := by omega
                  refine ⟨by omega, ?_⟩
                  intro heq
                  omega
              · have hbe : b = i := by omega
                have hca : c ≤ a := hac a (by rw [← hbe]; exact hz)
                refine ⟨by omega, ?_⟩
                intro heq
                omega
            · intro c' hc'
              injection hc' with hc'
              omega
          · intro hcontra
            exact Option.noConfusion hcontra
        | some p =>
          obtain ⟨lo, hi⟩ := p
          obtain ⟨h1, h2, h3, h4, h5⟩ := hbest lo hi rfl
          have hlc : lo ≤ c := h5 c rfl
          simp only [bzr_update]
          by_cases hupd : hi - lo < i - c
          · rw [if_pos hupd]
            apply ih (i + 1) (some (c, i)) (some c) hrest (by omega)
            · intro c' hc'
              injection hc' with hc'
              subst hc'
              exact ⟨by omega, fun j hj1 hj2 => hczero j hj1 (by omega), hstart⟩
            · intro hcontra
              exact Option.noConfusion hcontra
            · intro lo' hi' hb
              injection hb with hb
              injection hb with hb1 hb2
              subst hb1
              subst hb2
              refine ⟨by omega, by omega, hczero, ?_, ?_⟩
              · intro a b hab hblt hz
                by_cases hbi : b < i
                · have := h4 a b hab hbi hz
                  refine ⟨by omega, ?_⟩
                  intro heq
                  omega
                · have hbe : b = i := by omega
                  have hca : c ≤ a := hac a (by rw [← hbe]; exact hz)
                  refine ⟨by omega, ?_⟩
                  intro heq
                  omega
              · intro c' hc'
                injection hc' with hc'
                omega
            · intro hcontra
              exact Option.noConfusion hcontra
          · rw [if_neg hupd]
            apply ih (i + 1) (some (lo, hi)) (some c) hrest (by omega)
            · intro c' hc'
              injection hc' with hc'
              subst hc'
              exact ⟨by omega, fun j hj1 hj2 => hczero j hj1 (by omega), hstart⟩
            · intro hcontra
              exact Option.noConfusion hcontra
            · intro lo' hi' hb
              injection hb with hb
              injection hb with hb1 hb2
              subst hb1
              subst hb2
              refine ⟨h1, by omega, h3, ?_, ?_⟩
              · intro a b hab hblt hz
                by_cases hbi : b < i
                · exact h4 a b hab hbi hz
                · have hbe : b = i := by omega
                  have hca : c ≤ a := hac a (by rw [← hbe]; exact hz)
                  refine ⟨by omega, ?_⟩
                  intro heq
                  omega
              · intro c' hc'
                injection hc' with hc'
                omega
            · intro hcontra
              exact Option.noConfusion hcontra
    · simp only [best_zero_run_go, if_neg hq]
      apply ih (i + 1) best none hrest (by omega)
      · intro c hc
        exact Option.noConfusion hc
      · intro _ j hj
        have : j = i := by omega
        rw [this, hqi]
        exact hq
      · intro lo hi hb
        obtain ⟨h1, h2, h3, h4, _⟩ := hbest lo hi hb
        refine ⟨h1, by omega, h3, ?_, ?_⟩
        · intro a b hab hblt hz
          by_cases hbi : b < i
          · exact h4 a b hab hbi hz
          · have hbe : b = i := by omega
            have hiz : qs.getD i 1 = 0 := hz i (by omega) (by omega)
            rw [hqi] at hiz
            exact absurd hiz hq
        · intro c hc
          exact Option.noConfusion hc
      · intro hb a b hab hblt hz
        by_cases hbi : b < i
        · exact hbestn hb a b hab hbi hz
        · have hbe : b = i := by omega
          have hiz : qs.getD i 1 = 0 := hz i (by omega) (by omega)
          rw [hqi] at hiz
          exact absurd hiz hq

/-- The zero-run scan finds the leftmost longest zero run of length at
least two, or nothing when no such run exists. -/
lemma best_zero_run_char (qs : List Nat) :
    (∀ lo hi, best_zero_run qs = some (lo, hi) →
        lo < hi ∧ hi < qs.length ∧ (∀ j, lo ≤ j → j ≤ hi → qs.getD j 1 = 0) ∧
        (∀ a b, a ≤ b → b < qs.length → (∀ j, a ≤ j → j ≤ b → qs.getD j 1 = 0) →
            b - a ≤ hi - lo ∧ (b - a = hi - lo → lo ≤ a))) ∧
    (best_zero_run qs = none → ∀ a b, a < b → b < qs.length →
        ¬(∀ j, a ≤ j → j ≤ b → qs.getD j 1 = 0)) :=
  bzr_go_char qs qs 0 none none rfl (Nat.zero_le _)
    (fun _ h => Option.noConfusion h)
    (fun _ j hj => absurd hj (by omega))
    (fun _ _ h => Option.noConfusion h)
    (fun _ a b _ hb => absurd hb (by omega))

lemma bwformat_in6_default (qs : List Nat) :
    bwformat_in6 {} qs = in6_go in6_default_spec (best_zero_run qs) qs 0 := rfl

lemma fi_hex_in6 (q : Nat) (hq : q < 65536) :
    Format_Integer in6_default_spec q false = hex_chars q :=
  Format_Integer_hex in6_default_spec q rfl rfl rfl rfl rfl (lt_trans hq (by decide))

/-- C4: an IPv6 address rendered without the fixed-alignment extension
collapses exactly the longest run of consecutive zero groups to `::`
(the leftmost on ties, and only runs of length at least two are recorded)
and renders the remaining groups as colon-separated hex — lower-case for
the default type, upper-case for the upper-case type variant; the address
with groups 2001,0,0,0,0,0,0,1 renders as `2001::1`. -/
theorem C4_in6_zero_compression :
    (∀ (qs : List Nat) (lo hi : Nat), best_zero_run qs = some (lo, hi) →
        lo < hi ∧ hi < qs.length ∧ allZero qs lo hi ∧
        (∀ a b, a ≤ b → b < qs.length → allZero qs a b →
            b - a ≤ hi - lo ∧ (b - a = hi - lo → lo ≤ a))) ∧
    (∀ q0 q1 q2 q3 q4 q5 q6 q7 lo hi : Nat,
        q0 < 65536 → q1 < 65536 → q2 < 65536 → q3 < 65536 →
        q4 < 65536 → q5 < 65536 → q6 < 65536 → q7 < 65536 →
        best_zero_run [q0, q1, q2, q3, q4, q5, q6, q7] = some (lo, hi) →
        bwformat_in6 {} [q0, q1, q2, q3, q4, q5, q6, q7] =
          in6_compressed [q0, q1, q2, q3, q4, q5, q6, q7] lo hi) ∧
    bwformat_in6 {} [8193, 0, 0, 0, 0, 0, 0, 1] = "2001::1".data ∧
    bwformat_in6 { type := 'X' } [8193, 3512, 0, 0, 0, 0, 0, 1] = "2001:DB8::1".data ∧
    bwformat_in6 {} [1, 0, 0, 2, 0, 0, 3, 4] = "1::2:0:0:3:4".data := by
  refine ⟨fun qs => (best_zero_run_char qs).1, ?_, by decide, by decide, by decide⟩
  intro q0 q1 q2 q3 q4 q5 q6 q7 lo hi h0 h1 h2 h3 h4 h5 h6 h7 hbest
  obtain ⟨hlh, hhi, -, -⟩ := (best_zero_run_char _).1 lo hi hbest
  rw [bwformat_in6_default, hbest]
  simp only [List.length_cons, List.length_nil] at hhi
  have hlo : lo < 7 := by omega
  have hhi7 : hi ≤ 7 := by omega
  interval_cases hi <;> interval_cases lo <;>
    simp_all [in6_go, in6_compressed, fi_hex_in6, List.intercalate, List.intersperse]

/-- Witness for C4: the run of groups 2 and 3 of a concrete address is
compressed according to the general rendering equation. -/
theorem C4_witness :
    bwformat_in6 {} [1, 1, 0, 0, 1, 1, 1, 1] =
      in6_compressed [1, 1, 0, 0, 1, 1, 1, 1] 2 3 :=
  C4_in6_zero_compression.2.1 1 1 0 0 1 1 1 1 2 3 (by decide) (by decide) (by decide)
    (by decide) (by decide) (by decide) (by decide) (by decide) (by decide)

/-- C10: a run of exactly one zero group is never compressed: the recorded
run always has length at least two and consists of zeros, and an address
whose zero groups are all isolated renders with every group spelled out —
a single zero group appears as `0`. -/
theorem C10_single_zero_run_not_compressed :
    (∀ (qs : List Nat) (lo hi : Nat), best_zero_run qs = some (lo, hi) →
        lo < hi ∧ allZero qs lo hi) ∧
    (∀ q0 q1 q2 q3 q4 q5 q6 q7 : Nat,
        q0 < 65536 → q1 < 65536 → q2 < 65536 → q3 < 65536 →
        q4 < 65536 → q5 < 65536 → q6 < 65536 → q7 < 65536 →
        (∀ i, i < 7 → ¬([q0, q1, q2, q3, q4, q5, q6, q7].getD i 1 = 0 ∧
            [q0, q1, q2, q3, q4, q5, q6, q7].getD (i + 1) 1 = 0)) →
        bwformat_in6 {} [q0, q1, q2, q3, q4, q5, q6, q7] =
          in6_uncompressed [q0, q1, q2, q3, q4, q5, q6, q7]) := by
  constructor
  · intro qs lo hi hbest
    obtain ⟨hlh, -, hz, -⟩ := (best_zero_run_char qs).1 lo hi hbest
    exact ⟨hlh, hz⟩
  · intro q0 q1 q2 q3 q4 q5 q6 q7 h0 h1 h2 h3 h4 h5 h6 h7 hadj
    have hnone : best_zero_run [q0, q1, q2, q3, q4, q5, q6, q7] = none := by
      cases hbz : best_zero_run [q0, q1, q2, q3, q4, q5, q6, q7] with
      | none => rfl
      | some p =>
        obtain ⟨lo, hi⟩ := p
        obtain ⟨hlh, hhi, hz, -⟩ := (best_zero_run_char _).1 lo hi hbz
        simp only [List.length_cons, List.length_nil] at hhi
        exact absurd ⟨hz lo (le_refl lo) (by omega), hz (lo + 1) (by omega) (by omega)⟩
          (hadj lo (by omega))
    rw [bwformat_in6_default, hnone]
    simp [in6_go, in6_uncompressed, fi_hex_in6, h0, h1, h2, h3, h4, h5, h6, h7,
      List.intercalate, List.intersperse]

/-- Witness for C10: an address with four isolated zero groups renders
every group, zeros included, with no compression. -/
theorem C10_witness :
    bwformat_in6 {} [1, 0, 2, 0, 3, 0, 4, 0] =
      in6_uncompressed [1, 0, 2, 0, 3, 0, 4, 0] :=
  C10_single_zero_run_not_compressed.2 1 0 2 0 3 0 4 0 (by decide) (by decide)
    (by decide) (by decide) (by decide) (by decide) (by decide) (by decide)
    (by decide)

lemma flag_ne_eq {c : Char} (h : c ∈ flag_chars) : c ≠ '=' := by
  fin_cases h <;> decide

lemma ext_strip_no_eq (ext : List Char) (h : ∀ c ∈ ext, c ∈ flag_chars) :
    ext_strip ext = (none, ext) := by
  match ext with
  | [] => rfl
  | [c] =>
    have hc : c ≠ '=' := flag_ne_eq (h c (by simp))
    simp [ext_strip, hc]
  | c :: d :: rest =>
    have hc : c ≠ '=' := flag_ne_eq (h c (by simp))
    have hd : d ≠ '=' := flag_ne_eq (h d (by simp))
    simp [ext_strip, hc, hd]

lemma sa_flags_eq (ext : List Char) :
    ∀ a p f : Bool,
    sa_flags ext (a, p, f) =
      (a || ext.any (fun c => c == 'a' || c == 'A'),
       p || ext.any (fun c => c == 'p' || c == 'P'),
       f || ext.any (fun c => c == 'f' || c == 'F')) := by
  induction ext with
  | nil => intro a p f; simp [sa_flags]
  | cons c rest ih =>
    intro a p f
    simp only [sa_flags, List.any_cons]
    by_cases h1 : c = 'a' ∨ c = 'A'
    · have e1 : (c == 'a' || c == 'A') = true := by
        rcases h1 with h | h <;> simp [h]
      have e2 : (c == 'p' || c == 'P') = false := by
        rcases h1 with h | h <;> subst h <;> decide
      have e3 : (c == 'f' || c == 'F') = false := by
        rcases h1 with h | h <;> subst h <;> decide
      rw [if_pos h1, ih]
      simp [e1, e2, e3]
    · by_cases h2 : c = 'p' ∨ c = 'P'
      · have e1 : (c == 'a' || c == 'A') = false := by
          rcases h2 with h | h <;> subst h <;> decide
        have e2 : (c == 'p' || c == 'P') = true := by
          rcases h2 with h | h <;> simp [h]
        have e3 : (c == 'f' || c == 'F') = false := by
          rcases h2 with h | h <;> subst h <;> decide
        rw [if_neg h1, if_pos h2, ih]
        simp [e1, e2, e3]
      · by_cases h3 : c = 'f' ∨ c = 'F'
        · have e1 : (c == 'a' || c == 'A') = false := by
            rcases h3 with h | h <;> subst h <;> decide
          have e2 : (c == 'p' || c == 'P') = false := by
            rcases h3 with h | h <;> subst h <;> decide
          have e3 : (c == 'f' || c == 'F') = true := by
            rcases h3 with h | h <;> simp [h]
          rw [if_neg h1, if_neg h2, if_pos h3, ih]
          simp [e1, e2, e3]
        · have e1 : (c == 'a' || c == 'A') = false := by
            simp only [Bool.or_eq_false_iff, beq_eq_false_iff_ne]
            exact ⟨fun h => h1 (Or.inl h), fun h => h1 (Or.inr h)⟩
          have e2 : (c == 'p' || c == 'P') = false := by
            simp only [Bool.or_eq_false_iff, beq_eq_false_iff_ne]
            exact ⟨fun h => h2 (Or.inl h), fun h => h2 (Or.inr h)⟩
          have e3 : (c == 'f' || c == 'F') = false := by
            simp only [Bool.or_eq_false_iff, beq_eq_false_iff_ne]
            exact ⟨fun h => h3 (Or.inl h), fun h => h3 (Or.inr h)⟩
          rw [if_neg h1, if_neg h2, if_neg h3, ih]
          simp [e1, e2, e3]

/-- C5: the composite endpoint formatter emits address and port by default
(empty pad-stripped extension); a non-empty flag extension selects exactly
the sub-parts named by its `a`/`p`/`f` characters; an IPv6 address is
bracketed exactly when a port is also emitted; the IPv4 endpoint 192.0.2.1
port 80 with flags `ap` renders as `192.0.2.1:80` and the IPv6 endpoint
2001:db8::1 port 80 renders as `[2001:db8::1]:80`. -/
theorem C5_endpoint_composition :
    (∀ sa : SockAddr, bwformat_sockaddr {} sa = endpoint_parts {} true true false sa) ∧
    (∀ (sa : SockAddr) (ext : List Char), ext ≠ [] → (∀ c ∈ ext, c ∈ flag_chars) →
        bwformat_sockaddr { ext := ext } sa =
          endpoint_parts { ext := ext }
            (ext.any fun c => c == 'a' || c == 'A')
            (ext.any fun c => c == 'p' || c == 'P')
            (ext.any fun c => c == 'f' || c == 'F') sa) ∧
    bwformat_sockaddr { ext := "ap".data } (SockAddr.ip4 3221225985 80) =
      "192.0.2.1:80".data ∧
    bwformat_sockaddr { ext := "ap".data }
        (SockAddr.ip6 [8193, 3512, 0, 0, 0, 0, 0, 1] 80) =
      "[2001:db8::1]:80".data := by
  refine ⟨fun sa => rfl, ?_, by decide, by decide⟩
  intro sa ext hne hflags
  have hstrip := ext_strip_no_eq ext hflags
  have hsa := sa_flags_eq ext false false false
  simp only [Bool.false_or] at hsa
  simp only [bwformat_sockaddr, endpoint_parts, hstrip, hsa]
  rw [if_neg (show ¬(DEFAULT_TYPE = 'p' ∨ DEFAULT_TYPE = 'P') by decide)]
  simp [hne]

/-- Witness for C5 with the `pf` flag extension on an IPv4 endpoint. -/
theorem C5_witness :
    bwformat_sockaddr { ext := ['p', 'f'] } (SockAddr.ip4 3221225985 80) =
      endpoint_parts { ext := ['p', 'f'] }
        (['p', 'f'].any fun c => c == 'a' || c == 'A')
        (['p', 'f'].any fun c => c == 'p' || c == 'P')
        (['p', 'f'].any fun c => c == 'f' || c == 'F')
        (SockAddr.ip4 3221225985 80) :=
  C5_endpoint_composition.2.1 (SockAddr.ip4 3221225985 80) ['p', 'f']
    (by decide) (by decide)

end Swoc
